import Mathlib

/-!
# scrapedb: a fetch-and-cache layer (`db.go`, `spider.go`)

A shallow embedding of the page store, the blob store and the spider of
`jbn/scrapedb`, followed by the properties proved about them.

Go strings and byte slices are byte sequences.  What the package takes from
outside (the JSON and gzip codecs, badger's write validation, the wall clock,
the HTTP client) is a parameter `Env`; what it mutates (the badger key space,
the blob directory tree, the number of clock readings, the requests sent) is
the state `World`, threaded explicitly through every operation.
-/

namespace ScrapeDB

/-! ## Bytes and strings -/

/-- A Go `byte`. -/
abbrev Byte := Fin 256

/-- A Go `string` or `[]byte`: a finite byte sequence (`len` is `List.length`). -/
abbrev GoString := List Byte

/-- UTF-8 encoding of a code point, as done by `fmt.Sprintf("%c", c)`
(`utf8.AppendRune`): surrogates and out-of-range values become U+FFFD. -/
def encodeRune (r : Nat) : GoString :=
  if r < 0x80 then [Fin.ofNat r]
  else if r < 0x800 then [Fin.ofNat (0xC0 + r / 64), Fin.ofNat (0x80 + r % 64)]
  else if (0xD800 ≤ r ∧ r ≤ 0xDFFF) ∨ 0x10FFFF < r then [0xEF, 0xBF, 0xBD]
  else if r < 0x10000 then
    [Fin.ofNat (0xE0 + r / 4096), Fin.ofNat (0x80 + r / 64 % 64), Fin.ofNat (0x80 + r % 64)]
  else
    [Fin.ofNat (0xF0 + r / 262144), Fin.ofNat (0x80 + r / 4096 % 64),
     Fin.ofNat (0x80 + r / 64 % 64), Fin.ofNat (0x80 + r % 64)]

/-- The bytes of a string literal of the Go source (UTF-8). -/
def goStr (s : String) : GoString :=
  s.data.foldr (fun c acc => encodeRune c.toNat ++ acc) []

/-- UTF-8 continuation byte. -/
def isCont (b : Byte) : Bool := decide (0x80 ≤ b.val ∧ b.val ≤ 0xBF)

/-- First rune of a string and its width in bytes, as `utf8.DecodeRuneInString`
(what `for i, c := range s` uses): an invalid or truncated sequence yields
`(U+FFFD, 1)`, the empty string `(U+FFFD, 0)`. -/
def decodeRune : GoString → Nat × Nat
  | [] => (0xFFFD, 0)
  | b0 :: rest =>
    let x := b0.val
    if x < 0x80 then (x, 1)
    else if 0xC2 ≤ x ∧ x ≤ 0xDF then
      match rest with
      | b1 :: _ =>
        if isCont b1 then (x % 32 * 64 + b1.val % 64, 2) else (0xFFFD, 1)
      | _ => (0xFFFD, 1)
    else if 0xE0 ≤ x ∧ x ≤ 0xEF then
      match rest with
      | b1 :: b2 :: _ =>
        let lo := if x = 0xE0 then 0xA0 else 0x80
        let hi := if x = 0xED then 0x9F else 0xBF
        if lo ≤ b1.val ∧ b1.val ≤ hi ∧ isCont b2 = true then
          (x % 16 * 4096 + b1.val % 64 * 64 + b2.val % 64, 3)
        else (0xFFFD, 1)
      | _ => (0xFFFD, 1)
    else if 0xF0 ≤ x ∧ x ≤ 0xF4 then
      match rest with
      | b1 :: b2 :: b3 :: _ =>
        let lo := if x = 0xF0 then 0x90 else 0x80
        let hi := if x = 0xF4 then 0x8F else 0xBF
        if lo ≤ b1.val ∧ b1.val ≤ hi ∧ isCont b2 = true ∧ isCont b3 = true then
          (x % 8 * 262144 + b1.val % 64 * 4096 + b2.val % 64 * 64 + b3.val % 64, 4)
        else (0xFFFD, 1)
      | _ => (0xFFFD, 1)
    else (0xFFFD, 1)

/-- Bytewise `strings.HasPrefix(s, pre)`. -/
def HasPrefix : GoString → GoString → Bool
  | _, [] => true
  | [], _ :: _ => false
  | c :: s, d :: pre => decide (c = d) && HasPrefix s pre

/-- As `strings.TrimPrefix(s, pre)`: `s` without the leading `pre` when it
has it, `s` unchanged otherwise. -/
def TrimPrefix (s pre : GoString) : GoString :=
  if HasPrefix s pre = true then s.drop pre.length else s

/-- Decimal text of a non-negative count, as `fmt.Sprintf("%d", n)`. -/
def decimal (n : Nat) : GoString :=
  (Nat.toDigits 10 n).map (fun c => Fin.ofNat c.toNat)

/-! ## `path/filepath` on a Unix system -/

/-- The path separator `'/'`. -/
def Separator : Byte := 47

/-- The fields of a path between separators (`strings.Split(p, "/")`). -/
def splitSep : GoString → List GoString
  | [] => [[]]
  | c :: cs =>
    if c = Separator then [] :: splitSep cs
    else
      match splitSep cs with
      | [] => [[c]]
      | e :: es => (c :: e) :: es

/-- Elements joined with single separators (`strings.Join(es, "/")`). -/
def joinSep : List GoString → GoString
  | [] => []
  | [e] => e
  | e :: es => e ++ Separator :: joinSep es

/-- The element pass of `filepath.Clean`: empty and `.` elements are dropped,
`..` removes the preceding element when there is one to remove, is dropped
at the root and is kept at the start of a relative path.  `acc` is the
output so far, last element first. -/
def cleanElems (rooted : Bool) : List GoString → List GoString → List GoString
  | [], acc => acc.reverse
  | e :: es, acc =>
    if e = [] ∨ e = [46] then cleanElems rooted es acc
    else if e = [46, 46] then
      match acc with
      | top :: below =>
        if top = [46, 46] then cleanElems rooted es (e :: acc)
        else cleanElems rooted es below
      | [] => if rooted then cleanElems rooted es [] else cleanElems rooted es [e]
    else cleanElems rooted es (e :: acc)

/-- As `filepath.Clean`: the shortest equivalent path by lexical processing. -/
def Clean (path : GoString) : GoString :=
  match path with
  | [] => [46]
  | c :: _ =>
    let rooted := decide (c = Separator)
    let out := joinSep (cleanElems rooted (splitSep path) [])
    if rooted then Separator :: out
    else if out = [] then [46] else out

/-- As `filepath.Join`: leading empty elements are skipped, the rest are
joined with separators and cleaned; no non-empty element gives `""`. -/
def Join (elem : List GoString) : GoString :=
  match elem.dropWhile (fun e => decide (e = [])) with
  | [] => []
  | es => Clean (joinSep es)

/-- As `filepath.Base`: the last element of the path, after removing
trailing separators; `"."` for the empty path, `"/"` for one of separators
only. -/
def Base (path : GoString) : GoString :=
  if path = [] then [46]
  else
    let p := (path.reverse.dropWhile (fun c => decide (c = Separator)))
    let b := (p.takeWhile (fun c => decide (c ≠ Separator))).reverse
    if b = [] then [Separator] else b

/-- As `filepath.Dir`: everything before the last separator, cleaned. -/
def Dir (path : GoString) : GoString :=
  Clean ((path.reverse.dropWhile (fun c => decide (c ≠ Separator))).reverse)

/-- The loop `for i, c := range filename` of `BlobPath`, whose body appends
`fmt.Sprintf("%c", c)` to `parts` and breaks when `i == 2`: the strings
appended to `parts`.  `i` is the byte offset of the rune `c` in
`filename`, `s` what is left of `filename` from that offset on; the first
argument bounds the number of iterations and is the length of the string,
since every iteration consumes at least one byte. -/
def rangeParts : Nat → Nat → GoString → List GoString
  | 0, _, _ => []
  | fuel + 1, i, s =>
    match s with
    | [] => []
    | _ :: _ =>
      encodeRune (decodeRune s).1 ::
        (if i = 2 then [] else rangeParts fuel (i + (decodeRune s).2) (s.drop (decodeRune s).2))

/-! ## Errors, records, the environment and the state -/

/-- The errors the package returns or passes on. -/
inductive Error where
  /-- The sentinel `badger.ErrKeyNotFound`. -/
  | ErrKeyNotFound
  /-- From `BlobPath`: `"filename is too small: %d < 3"`. -/
  | filenameTooSmall (k : Nat)
  /-- From `RequestBlob`: `"'%s' is too short"`. -/
  | tooShort (filename : GoString)
  /-- From `RequestBlob`: `"error getting %s: %s"` with the URL and `resp.Status`. -/
  | errorGetting (url status : GoString)
  /-- From `RequestBlob`: `"error reading %s: %w"` with the URL and the cause. -/
  | errorReading (url : GoString) (cause : Error)
  /-- An error raised by a library or by the operating system. -/
  | external (code : Nat)
  deriving DecidableEq, Repr

/-- The struct `Page`.  `FetchedAt` is an instant in UTC, counted in
nanoseconds; `Data` is the payload (a nil and an empty slice are the same
byte sequence). -/
structure Page where
  FetchedAt : Int
  Data : GoString
  deriving DecidableEq, Repr

/-- An `io.Reader` read to its end: the bytes it delivers, then either the
end of the stream (`none`) or a read error. -/
structure Reader where
  data : GoString
  err : Option Error
  deriving DecidableEq, Repr

/-- The fields of `http.Response` the package looks at. -/
structure Response where
  StatusCode : Int
  Status : GoString
  Body : Reader
  deriving DecidableEq, Repr

/-- What the package calls outside itself.
* `jsonMarshal`, `jsonDecode`: `json.Marshal` of a `Page` and
  `json.NewDecoder(r).Decode` into a zero `Page`;
* `gzipWrite`, `gzipNewReader`: a `gzip.Writer` written once and closed, and
  the stream a `gzip.Reader` over the given bytes delivers;
* `badgerSet`: whether badger refuses the write of a key and value (size
  limits, reserved keys, a failed commit);
* `now`: the successive readings of `time.Now().UTC()`;
* `newRequest`: whether `http.NewRequest("GET", url, nil)` refuses the URL;
* `clientDo`: the answer of `client.Do` to the `n`-th request sent, given the
  URL and the user agent. -/
structure Env where
  jsonMarshal : Page → Except Error GoString
  jsonDecode : Reader → Except Error Page
  gzipWrite : GoString → Except Error GoString
  gzipNewReader : GoString → Except Error Reader
  badgerSet : GoString → GoString → Option Error
  now : Nat → Int
  newRequest : GoString → Option Error
  clientDo : Nat → GoString → GoString → Except Error Response

/-- The documented contract of the two codecs: decoding what `json.Marshal`
produced gives the record back, and a gzip reader over what a gzip writer
produced delivers the written bytes and then the end of the stream. -/
structure Env.Lawful (env : Env) : Prop where
  json : ∀ p b, env.jsonMarshal p = .ok b → env.jsonDecode ⟨b, none⟩ = .ok p
  gzip : ∀ b z, env.gzipWrite b = .ok z → env.gzipNewReader z = .ok ⟨b, none⟩

/-- The mutable state: the `DB` (`conn`, the badger key space as entries in
ascending key order, and `blobDir`), the file system (regular files with their
contents, directories), the number of clock readings taken, the requests
sent (URL and user agent), and the spider's `userAgent`. -/
structure World where
  conn : List (GoString × GoString)
  blobDir : GoString
  files : List (GoString × GoString)
  dirs : List GoString
  ticks : Nat
  sent : List (GoString × GoString)
  userAgent : GoString
  deriving DecidableEq, Repr

/-! ## The key-value store (badger) -/

/-- Bytewise lexicographic order, badger's key order (`bytes.Compare(a, b) < 0`). -/
def bytesLt : GoString → GoString → Bool
  | _, [] => false
  | [], _ :: _ => true
  | a :: s, b :: t => decide (a < b) || (decide (a = b) && bytesLt s t)

/-- The value under a key (`txn.Get`), if any. -/
def kvGet (key : GoString) : List (GoString × GoString) → Option GoString
  | [] => none
  | (k, v) :: rest => if k = key then some v else kvGet key rest

/-- The entries after `txn.Set(key, val)`: the key's value is replaced when
the key is present, the entry is inserted at its place in key order when not. -/
def kvSet (key val : GoString) : List (GoString × GoString) → List (GoString × GoString)
  | [] => [(key, val)]
  | (k, v) :: rest =>
    if bytesLt k key = true then (k, v) :: kvSet key val rest
    else if k = key then (key, val) :: rest
    else (key, val) :: (k, v) :: rest

/-- The entries from the iterator's position after `it.Seek(pre)`: those from
the first key not below `pre` on. -/
def seek (pre : GoString) (entries : List (GoString × GoString)) : List (GoString × GoString) :=
  entries.dropWhile (fun kv => bytesLt kv.1 pre)

/-! ## `db.go` -/

/-- `PageKey`: `fmt.Sprintf("%s-%s", kind, path)` as bytes (`45` is `'-'`). -/
def PageKey (kind path : GoString) : GoString :=
  kind ++ [45] ++ path

/-- `compressedJSON`: marshal, then gzip. -/
def compressedJSON (env : Env) (obj : Page) : Except Error GoString :=
  match env.jsonMarshal obj with
  | .error e => .error e
  | .ok b => env.gzipWrite b

/-- `getCompressedJSON`: get the item, open a gzip reader on its value and
decode the stream. -/
def getCompressedJSON (env : Env) (txn : List (GoString × GoString)) (key : GoString) :
    Except Error Page :=
  match kvGet key txn with
  | none => .error .ErrKeyNotFound
  | some val =>
    match env.gzipNewReader val with
    | .error e => .error e
    | .ok r => env.jsonDecode r

/-- `(*DB).GetCompressedJSON`: `getCompressedJSON` in a read-only transaction. -/
def GetCompressedJSON (env : Env) (w : World) (key : GoString) : Except Error Page :=
  getCompressedJSON env w.conn key

/-- `(*DB).GetPage`. -/
def GetPage (env : Env) (w : World) (kind path : GoString) : Except Error Page :=
  GetCompressedJSON env w (PageKey kind path)

/-- `(*DB).UpdatePage`: reads the clock, encodes the record and sets the
key.  Returns the error (`none` for `nil`) and the state after. -/
def UpdatePage (env : Env) (w : World) (kind path data : GoString) : Option Error × World :=
  let w1 := { w with ticks := w.ticks + 1 }
  match compressedJSON env ⟨env.now w.ticks, data⟩ with
  | .error e => (some e, w1)
  | .ok b =>
    match env.badgerSet (PageKey kind path) b with
    | some e => (some e, w1)
    | none => (none, { w1 with conn := kvSet (PageKey kind path) b w1.conn })

/-- The loop of `ScanPages` from the iterator's position: the strings sent on
the channel.  `ctx i` tells whether `ctx.Done()` is found closed by the
check of iteration `i`. -/
def scanLoop (ctx : Nat → Bool) (pre : GoString) : Nat → List (GoString × GoString) → List GoString
  | _, [] => []
  | i, (k, _) :: rest =>
    if HasPrefix k pre = true then
      if ctx i = true then []
      else TrimPrefix k pre :: scanLoop ctx pre (i + 1) rest
    else []

/-- `(*DB).ScanPages`: everything the channel delivers before it is closed,
in order, and the returned error, which is always `nil`. -/
def ScanPages (w : World) (ctx : Nat → Bool) (kind : GoString) : List GoString × Option Error :=
  (scanLoop ctx (kind ++ [45]) 0 (seek (kind ++ [45]) w.conn), none)

/-! ### The file system under the blob store -/

/-- Whether a path is a directory: the roots `"."` and `"/"` always are. -/
def isDir (w : World) (p : GoString) : Bool :=
  decide (p = [46]) || decide (p = [Separator]) || decide (p ∈ w.dirs)

/-- Whether a path is a regular file. -/
def isFile (w : World) (p : GoString) : Bool :=
  (kvGet p w.files).isSome

/-- The non-empty initial segments of a list, shortest first. -/
def initsOf : List GoString → List (List GoString)
  | [] => []
  | e :: es => [e] :: (initsOf es).map (fun l => e :: l)

/-- A path's ancestors from the top down, the path itself last. -/
def ancestors (path : GoString) : List GoString :=
  ((initsOf (splitSep path)).map joinSep).filter (fun p => decide (p ≠ []))

/-- Creates each of the listed directories that is missing; stops with
`ENOTDIR` (20) at one that is a regular file. -/
def mkdirEach : List GoString → World → Option Error × World
  | [], w => (none, w)
  | p :: ps, w =>
    if isFile w p = true then (some (.external 20), w)
    else mkdirEach ps (if isDir w p = true then w else { w with dirs := p :: w.dirs })

/-- As `os.MkdirAll(path, 0775)`. -/
def MkdirAll (w : World) (path : GoString) : Option Error × World :=
  mkdirEach (ancestors path) w

/-- As `os.OpenFile(path, os.O_CREATE|os.O_WRONLY, 0644)`: fails with `EISDIR`
(21) on a directory; opens an existing file as it is; creates an empty file
when the parent directory exists; fails with `ENOENT` (2) otherwise. -/
def OpenFile (w : World) (path : GoString) : Option Error × World :=
  if isDir w path = true then (some (.external 21), w)
  else if isFile w path = true then (none, w)
  else if isDir w (Dir path) = true then (none, { w with files := kvSet path [] w.files })
  else (some (.external 2), w)

/-- `(*DB).BlobPath`. -/
def BlobPath (w : World) (filename : GoString) : Except Error GoString × World :=
  if filename.length < 3 then (.error (.filenameTooSmall filename.length), w)
  else
    let dirPath := Join (w.blobDir :: rangeParts filename.length 0 filename)
    match MkdirAll w dirPath with
    | (some e, w1) => (.error e, w1)
    | (none, w1) => (.ok (Join [dirPath, filename]), w1)

/-- `(*DB).ReadBlob`: `ioutil.ReadFile` of the blob path (`ENOENT` when there
is no such file). -/
def ReadBlob (w : World) (filename : GoString) : Except Error GoString × World :=
  match BlobPath w filename with
  | (.error e, w1) => (.error e, w1)
  | (.ok fullPath, w1) =>
    match kvGet fullPath w1.files with
    | some content => (.ok content, w1)
    | none => (.error (.external 2), w1)

/-- `(*DB).WriteBlob`: opens the blob path and `io.Copy`s the reader into
the file from offset 0.  The file is opened without `O_TRUNC`: the bytes of
an existing file beyond those written stay. -/
def WriteBlob (w : World) (filename : GoString) (r : Reader) : (Int × Option Error) × World :=
  match BlobPath w filename with
  | (.error e, w1) => ((-1, some e), w1)
  | (.ok fullPath, w1) =>
    match OpenFile w1 fullPath with
    | (some e, w2) => ((-1, some e), w2)
    | (none, w2) =>
      let old := (kvGet fullPath w2.files).getD []
      ((r.data.length, r.err),
        { w2 with files := kvSet fullPath (r.data ++ old.drop r.data.length) w2.files })

/-! ## `spider.go` -/

/-- `(*Spider).getRequest`: builds the GET request, sets the user agent and
sends it. -/
def getRequest (env : Env) (w : World) (url : GoString) : Except Error Response × World :=
  match env.newRequest url with
  | some e => (.error e, w)
  | none =>
    (env.clientDo w.sent.length url w.userAgent,
      { w with sent := w.sent ++ [(url, w.userAgent)] })

/-- `RequestPage` from `resp, err := s.getRequest(url)` on: what runs when
there is no fresh record. -/
def requestPageFetch (env : Env) (w : World) (kind url : GoString) :
    (GoString × Bool × Option Error) × World :=
  match getRequest env w url with
  | (.error e, w1) => (([], false, some e), w1)
  | (.ok resp, w1) =>
    match resp.Body.err with
    | some e => (([], false, some e), w1)
    | none =>
      match UpdatePage env w1 kind url resp.Body.data with
      | (some e, w2) => (([], false, some e), w2)
      | (none, w2) => ((resp.Body.data, false, none), w2)

/-- `(*Spider).RequestPage`: the returned triple and the state after. -/
def RequestPage (env : Env) (w : World) (kind url : GoString) (staleAfter : Int) :
    (GoString × Bool × Option Error) × World :=
  match GetPage env w kind url with
  | .error e =>
    if e ≠ .ErrKeyNotFound then (([], false, some e), w)
    else requestPageFetch env w kind url
  | .ok page =>
    let w1 := { w with ticks := w.ticks + 1 }
    if page.FetchedAt + staleAfter > env.now w.ticks then ((page.Data, true, none), w1)
    else requestPageFetch env w1 kind url

/-- Decimal text of an `int64`, as `fmt.Sprintf("%d", n)`. -/
def decimalInt (n : Int) : GoString :=
  if n < 0 then 45 :: decimal n.natAbs else decimal n.toNat

/-- `RequestBlob` from `filename := filepath.Base(url)` on: what runs when
there is no fresh record. -/
def requestBlobFetch (env : Env) (w : World) (kind url : GoString) :
    (Int × Bool × Option Error) × World :=
  let filename := Base url
  if filename.length < 5 then ((-1, false, some (.tooShort filename)), w)
  else
    match getRequest env w url with
    | (.error e, w1) => ((-1, false, some e), w1)
    | (.ok resp, w1) =>
      if resp.StatusCode ≠ 200 then ((-1, false, some (.errorGetting url resp.Status)), w1)
      else
        match WriteBlob w1 filename resp.Body with
        | ((_, some e), w2) => ((-1, false, some (.errorReading url e)), w2)
        | ((nWritten, none), w2) =>
          match UpdatePage env w2 kind url (decimalInt nWritten) with
          | (some e, w3) => ((-1, false, some e), w3)
          | (none, w3) => ((nWritten, false, none), w3)

/-- `(*Spider).RequestBlob`: the returned triple and the state after. -/
def RequestBlob (env : Env) (w : World) (kind url : GoString) (staleAfter : Int) :
    (Int × Bool × Option Error) × World :=
  match GetPage env w kind url with
  | .error e =>
    if e ≠ .ErrKeyNotFound then ((-1, false, some e), w)
    else requestBlobFetch env w kind url
  | .ok page =>
    let w1 := { w with ticks := w.ticks + 1 }
    if page.FetchedAt + staleAfter > env.now w.ticks then ((0, true, none), w1)
    else requestBlobFetch env w1 kind url

/-! ## A small environment and state, used to instantiate the theorems -/

/-- An environment with a toy codec: the record is written as `FetchedAt`
strokes (`'1'`), a colon and the payload, and refused for a negative
`FetchedAt`; the compressed form is the bytes behind the gzip magic number.
The server answers every request with the given status and the URL as body. -/
def demoEnv (status : Int) : Env where
  jsonMarshal p :=
    if p.FetchedAt < 0 then .error (.external 1)
    else .ok (List.replicate p.FetchedAt.toNat 49 ++ 58 :: p.Data)
  jsonDecode r :=
    match r.err with
    | some e => .error e
    | none =>
      match r.data.dropWhile (fun c => decide (c = 49)) with
      | 58 :: d => .ok ⟨((r.data.takeWhile (fun c => decide (c = 49))).length : Nat), d⟩
      | _ => .error (.external 3)
  gzipWrite b := .ok (31 :: 139 :: b)
  gzipNewReader z :=
    match z with
    | 31 :: 139 :: b => .ok ⟨b, none⟩
    | _ => .error (.external 4)
  badgerSet key _ := if key.length ≤ 65000 then none else some (.external 5)
  now n := 100 + n
  newRequest _ := none
  clientDo _ url _ := .ok ⟨status, decimalInt status, ⟨url, none⟩⟩

/-- An empty store with blob root `blobs`. -/
def demoWorld : World where
  conn := []
  blobDir := goStr "blobs"
  files := []
  dirs := []
  ticks := 0
  sent := []
  userAgent := goStr "ScrapeDB"

/-- A URL of 65000 bytes (`'a'` repeated): with any kind, its key is longer
than the 65000 bytes badger takes for a key. -/
def longURL : GoString := List.replicate 65000 97

/-- The cache check of `RequestPage` and `RequestBlob` finds no fresh
record: either there is no record under the key, or there is one and
`FetchedAt + staleAfter` is not after the clock reading.  `w0` is the state
after the check (the clock is read only when a record was found). -/
def NoFreshRecord (env : Env) (w : World) (kind url : GoString) (staleAfter : Int)
    (w0 : World) : Prop :=
  (kvGet (PageKey kind url) w.conn = none ∧ w0 = w) ∨
  (∃ page, GetPage env w kind url = .ok page ∧
    page.FetchedAt + staleAfter ≤ env.now w.ticks ∧ w0 = { w with ticks := w.ticks + 1 })

/-- The entries are in strictly ascending key order. -/
def SortedKeys (l : List (GoString × GoString)) : Prop :=
  l.Pairwise (fun x y => bytesLt x.1 y.1 = true)

/-- The states whose key space was built by `UpdatePage` calls alone, with
the `(kind, path)` pairs of the successful calls, latest first: an empty key
space has none; a successful `UpdatePage` adds its pair; anything that
leaves the key space as it is (a failed update, a blob operation, a clock
reading, a request) adds nothing. -/
inductive Built (env : Env) : List (GoString × GoString) → World → Prop
  | empty (w : World) (h : w.conn = []) : Built env [] w
  | update (hist : List (GoString × GoString)) (w w' : World) (kind path data : GoString)
      (hb : Built env hist w) (hu : UpdatePage env w kind path data = (none, w')) :
      Built env ((kind, path) :: hist) w'
  | frame (hist : List (GoString × GoString)) (w w' : World)
      (hb : Built env hist w) (hc : w'.conn = w.conn) : Built env hist w'

/-! ## Lemmas on the key order and the key-value store -/

theorem bytesLt_irrefl (a : GoString) : bytesLt a a = false := by
  induction a with
  | nil => rfl
  | cons x s ih => simp [bytesLt, ih]

theorem bytesLt_ne {a b : GoString} (h : bytesLt a b = true) : a ≠ b := by
  intro hab
  subst hab
  simp [bytesLt_irrefl] at h

theorem kvGet_kvSet_self (key val : GoString) (l : List (GoString × GoString)) :
    kvGet key (kvSet key val l) = some val := by
  induction l with
  | nil => simp [kvSet, kvGet]
  | cons e rest ih =>
    obtain ⟨k, v⟩ := e
    unfold kvSet
    by_cases hlt : bytesLt k key = true
    · have hne : k ≠ key := bytesLt_ne hlt
      simp [hlt, kvGet, hne, ih]
    · by_cases heq : k = key
      · subst heq
        simp [bytesLt_irrefl, kvGet]
      · simp [hlt, heq, kvGet]

theorem demoEnv_json_aux (n : Nat) (d : GoString) :
    (List.replicate n (49 : Byte) ++ 58 :: d).dropWhile (fun c => decide (c = 49)) = 58 :: d ∧
    ((List.replicate n (49 : Byte) ++ 58 :: d).takeWhile (fun c => decide (c = 49))).length = n := by
  induction n with
  | zero => simp [List.dropWhile, List.takeWhile]
  | succ n ih =>
    simp only [List.replicate_succ, List.cons_append, List.dropWhile, List.takeWhile]
    simp [ih.1, ih.2]

theorem demoEnv_lawful (status : Int) : (demoEnv status).Lawful where
  json := by
    intro p b h
    simp only [demoEnv] at h ⊢
    by_cases hneg : p.FetchedAt < 0
    · simp [hneg] at h
    · simp only [hneg, if_false] at h
      injection h with h
      subst h
      obtain ⟨h1, h2⟩ := demoEnv_json_aux p.FetchedAt.toNat p.Data
      simp only [h1, h2]
      have : ((p.FetchedAt.toNat : Nat) : Int) = p.FetchedAt := Int.toNat_of_nonneg (by omega)
      cases p
      simp_all
  gzip := by
    intro b z h
    simp only [demoEnv] at h ⊢
    injection h with h
    subst h
    rfl

theorem compressedJSON_decodes (env : Env) (hl : env.Lawful) (p : Page) (z : GoString)
    (h : compressedJSON env p = .ok z) :
    ∃ r, env.gzipNewReader z = .ok r ∧ env.jsonDecode r = .ok p := by
  unfold compressedJSON at h
  cases hm : env.jsonMarshal p with
  | error e => simp [hm] at h
  | ok b =>
    simp only [hm] at h
    exact ⟨⟨b, none⟩, hl.gzip b z h, hl.json p b hm⟩

theorem UpdatePage_ok (env : Env) (w w' : World) (kind path data : GoString)
    (h : UpdatePage env w kind path data = (none, w')) :
    ∃ z, compressedJSON env ⟨env.now w.ticks, data⟩ = .ok z ∧
      env.badgerSet (PageKey kind path) z = none ∧
      w' = { w with ticks := w.ticks + 1, conn := kvSet (PageKey kind path) z w.conn } := by
  unfold UpdatePage at h
  cases hc : compressedJSON env ⟨env.now w.ticks, data⟩ with
  | error e => simp [hc] at h
  | ok z =>
    simp only [hc] at h
    cases hs : env.badgerSet (PageKey kind path) z with
    | some e => simp [hs] at h
    | none =>
      simp only [hs] at h
      refine ⟨z, rfl, hs, ?_⟩
      injection h with _ h2
      exact h2.symm

theorem GetPage_after_set (env : Env) (hl : env.Lawful) (w : World) (kind path z : GoString)
    (p : Page) (hz : compressedJSON env p = .ok z) (n : Nat) :
    GetPage env { w with ticks := n, conn := kvSet (PageKey kind path) z w.conn } kind path
      = .ok p := by
  obtain ⟨r, hr, hd⟩ := compressedJSON_decodes env hl p z hz
  simp [GetPage, GetCompressedJSON, getCompressedJSON, kvGet_kvSet_self, hr, hd]

theorem append_dash_inj (k1 : GoString) :
    ∀ (k2 p1 p2 : GoString), (45 : Byte) ∉ k1 → (45 : Byte) ∉ k2 →
      k1 ++ 45 :: p1 = k2 ++ 45 :: p2 → k1 = k2 ∧ p1 = p2 := by
  induction k1 with
  | nil =>
    intro k2 p1 p2 _ h2 h
    cases k2 with
    | nil => simpa using h
    | cons b k2 =>
      simp only [List.nil_append, List.cons_append, List.cons.injEq] at h
      exact absurd (by simp [h.1]) h2
  | cons a k1 ih =>
    intro k2 p1 p2 h1 h2 h
    cases k2 with
    | nil =>
      simp only [List.nil_append, List.cons_append, List.cons.injEq] at h
      exact absurd (by simp [h.1]) h1
    | cons b k2 =>
      simp only [List.cons_append, List.cons.injEq] at h
      have h1' : (45 : Byte) ∉ k1 := fun hm => h1 (List.mem_cons_of_mem _ hm)
      have h2' : (45 : Byte) ∉ k2 := fun hm => h2 (List.mem_cons_of_mem _ hm)
      obtain ⟨hk, hp⟩ := ih k2 p1 p2 h1' h2' h.2
      exact ⟨by rw [h.1, hk], hp⟩

theorem GetPage_miss (env : Env) (w : World) (kind url : GoString)
    (h : kvGet (PageKey kind url) w.conn = none) :
    GetPage env w kind url = .error .ErrKeyNotFound := by
  simp [GetPage, GetCompressedJSON, getCompressedJSON, h]

theorem RequestPage_noFresh (env : Env) (w w0 : World) (kind url : GoString) (staleAfter : Int)
    (h : NoFreshRecord env w kind url staleAfter w0) :
    RequestPage env w kind url staleAfter = requestPageFetch env w0 kind url := by
  rcases h with ⟨hm, rfl⟩ | ⟨page, hg, hs, rfl⟩
  · simp [RequestPage, GetPage_miss env w0 kind url hm]
  · have : ¬ (page.FetchedAt + staleAfter > env.now w.ticks) := by omega
    simp [RequestPage, hg, this]

theorem RequestBlob_noFresh (env : Env) (w w0 : World) (kind url : GoString) (staleAfter : Int)
    (h : NoFreshRecord env w kind url staleAfter w0) :
    RequestBlob env w kind url staleAfter = requestBlobFetch env w0 kind url := by
  rcases h with ⟨hm, rfl⟩ | ⟨page, hg, hs, rfl⟩
  · simp [RequestBlob, GetPage_miss env w0 kind url hm]
  · have : ¬ (page.FetchedAt + staleAfter > env.now w.ticks) := by omega
    simp [RequestBlob, hg, this]

theorem NoFreshRecord_frame (env : Env) (w w0 : World) (kind url : GoString) (staleAfter : Int)
    (h : NoFreshRecord env w kind url staleAfter w0) :
    w0.conn = w.conn ∧ w0.files = w.files ∧ w0.dirs = w.dirs ∧ w0.sent = w.sent ∧
      w0.userAgent = w.userAgent ∧ w0.blobDir = w.blobDir := by
  rcases h with ⟨_, rfl⟩ | ⟨page, _, _, rfl⟩ <;> simp

theorem UpdatePage_fst_none (env : Env) (w : World) (kind path data : GoString)
    (h : (UpdatePage env w kind path data).1 = none) :
    ∃ z, compressedJSON env ⟨env.now w.ticks, data⟩ = .ok z ∧
      UpdatePage env w kind path data =
        (none, { w with ticks := w.ticks + 1, conn := kvSet (PageKey kind path) z w.conn }) := by
  obtain ⟨z, hz, _, hw⟩ := UpdatePage_ok env w (UpdatePage env w kind path data).2 kind path data
    (by rw [← h])
  exact ⟨z, hz, by rw [← hw, ← h]⟩

/-- What a fetch by `RequestPage` does when the request can be built, the
client answers, the body is read to its end and the store takes the record. -/
theorem requestPageFetch_ok (env : Env) (w : World) (kind url b : GoString) (resp : Response)
    (hreq : env.newRequest url = none)
    (hdo : env.clientDo w.sent.length url w.userAgent = .ok resp)
    (hbody : resp.Body = ⟨b, none⟩)
    (hstore : (UpdatePage env { w with sent := w.sent ++ [(url, w.userAgent)] } kind url b).1
      = none) :
    ∃ z, compressedJSON env ⟨env.now w.ticks, b⟩ = .ok z ∧
      requestPageFetch env w kind url =
        ((b, false, none),
          { w with sent := w.sent ++ [(url, w.userAgent)], ticks := w.ticks + 1,
                   conn := kvSet (PageKey kind url) z w.conn }) := by
  obtain ⟨z, hz, hu⟩ := UpdatePage_fst_none env _ kind url b hstore
  refine ⟨z, hz, ?_⟩
  simp only [requestPageFetch, getRequest, hreq, hdo, hbody, hu]

/-- A call of `RequestPage` that finds the record just stored, with the clock
still inside the staleness window. -/
theorem RequestPage_hit (env : Env) (w : World) (kind url : GoString) (staleAfter : Int)
    (page : Page) (hget : GetPage env w kind url = .ok page)
    (hfresh : env.now w.ticks < page.FetchedAt + staleAfter) :
    RequestPage env w kind url staleAfter =
      ((page.Data, true, none), { w with ticks := w.ticks + 1 }) := by
  have : page.FetchedAt + staleAfter > env.now w.ticks := by omega
  simp [RequestPage, hget, this]

theorem mkdirEach_frame (ps : List GoString) :
    ∀ w : World, (mkdirEach ps w).2.sent = w.sent ∧ (mkdirEach ps w).2.conn = w.conn ∧
      (mkdirEach ps w).2.files = w.files ∧ (mkdirEach ps w).2.userAgent = w.userAgent ∧
      (mkdirEach ps w).2.ticks = w.ticks := by
  induction ps with
  | nil => intro w; simp [mkdirEach]
  | cons p ps ih =>
    intro w
    unfold mkdirEach
    by_cases hf : isFile w p = true
    · simp [hf]
    · simp only [hf]
      by_cases hd : isDir w p = true
      · simpa [hd] using ih w
      · simpa [hd] using ih { w with dirs := p :: w.dirs }

theorem BlobPath_frame (w : World) (filename : GoString) :
    (BlobPath w filename).2.sent = w.sent ∧ (BlobPath w filename).2.conn = w.conn ∧
      (BlobPath w filename).2.files = w.files ∧ (BlobPath w filename).2.userAgent = w.userAgent ∧
      (BlobPath w filename).2.ticks = w.ticks := by
  unfold BlobPath
  by_cases h : filename.length < 3
  · simp [h]
  · simp only [h, if_false, MkdirAll]
    have hm := mkdirEach_frame
      (ancestors (Join (w.blobDir :: rangeParts filename.length 0 filename))) w
    generalize mkdirEach
      (ancestors (Join (w.blobDir :: rangeParts filename.length 0 filename))) w = r at hm
    obtain ⟨e, w1⟩ := r
    cases e <;> exact hm

theorem OpenFile_frame (w : World) (path : GoString) :
    (OpenFile w path).2.sent = w.sent ∧ (OpenFile w path).2.conn = w.conn ∧
      (OpenFile w path).2.userAgent = w.userAgent ∧ (OpenFile w path).2.ticks = w.ticks := by
  unfold OpenFile
  split
  · simp
  · split
    · simp
    · split <;> simp

theorem WriteBlob_frame (w : World) (filename : GoString) (r : Reader) :
    (WriteBlob w filename r).2.sent = w.sent ∧ (WriteBlob w filename r).2.conn = w.conn ∧
      (WriteBlob w filename r).2.userAgent = w.userAgent ∧
      (WriteBlob w filename r).2.ticks = w.ticks := by
  unfold WriteBlob
  have hb := BlobPath_frame w filename
  generalize BlobPath w filename = rb at hb
  obtain ⟨res, w1⟩ := rb
  cases res with
  | error e => exact ⟨hb.1, hb.2.1, hb.2.2.2.1, hb.2.2.2.2⟩
  | ok fullPath =>
    simp only
    have ho := OpenFile_frame w1 fullPath
    generalize OpenFile w1 fullPath = ro at ho
    obtain ⟨oe, w2⟩ := ro
    simp only at hb ho
    cases oe with
    | some e => exact ⟨ho.1.trans hb.1, ho.2.1.trans hb.2.1, ho.2.2.1.trans hb.2.2.2.1,
        ho.2.2.2.trans hb.2.2.2.2⟩
    | none => exact ⟨ho.1.trans hb.1, ho.2.1.trans hb.2.1, ho.2.2.1.trans hb.2.2.2.1,
        ho.2.2.2.trans hb.2.2.2.2⟩

theorem UpdatePage_frame (env : Env) (w : World) (kind path data : GoString) :
    (UpdatePage env w kind path data).2.sent = w.sent ∧
      (UpdatePage env w kind path data).2.files = w.files ∧
      (UpdatePage env w kind path data).2.dirs = w.dirs ∧
      (UpdatePage env w kind path data).2.userAgent = w.userAgent := by
  unfold UpdatePage
  cases compressedJSON env ⟨env.now w.ticks, data⟩ with
  | error e => simp
  | ok z =>
    simp only
    cases env.badgerSet (PageKey kind path) z <;> simp

/-- A fetch by `RequestBlob` whose file name passes the length check sends
the request, and nothing after the request touches the log of requests. -/
theorem requestBlobFetch_sent (env : Env) (w : World) (kind url : GoString)
    (hlen : 5 ≤ (Base url).length) (hreq : env.newRequest url = none) :
    (requestBlobFetch env w kind url).2.sent = w.sent ++ [(url, w.userAgent)] := by
  have hl : ¬ (Base url).length < 5 := by omega
  simp only [requestBlobFetch, hl, if_false, getRequest, hreq]
  cases env.clientDo w.sent.length url w.userAgent with
  | error e => rfl
  | ok resp =>
    simp only
    by_cases hs : resp.StatusCode ≠ 200
    · simp [hs]
    · simp only [hs, if_false]
      have hw := WriteBlob_frame { w with sent := w.sent ++ [(url, w.userAgent)] } (Base url)
        resp.Body
      generalize WriteBlob { w with sent := w.sent ++ [(url, w.userAgent)] } (Base url)
        resp.Body = rw at hw
      obtain ⟨⟨n, e⟩, w2⟩ := rw
      cases e with
      | some e => exact hw.1
      | none =>
        simp only
        have hu := UpdatePage_frame env w2 kind url (decimalInt n)
        generalize UpdatePage env w2 kind url (decimalInt n) = ru at hu
        obtain ⟨ue, w3⟩ := ru
        cases ue with
        | some e => exact hu.1.trans hw.1
        | none => exact hu.1.trans hw.1

/-- A fetch by `RequestBlob` that gets a status other than 200 fails and
writes neither a blob nor a record. -/
theorem requestBlobFetch_not_ok (env : Env) (w : World) (kind url : GoString) (resp : Response)
    (hdo : env.clientDo w.sent.length url w.userAgent = .ok resp)
    (hstatus : resp.StatusCode ≠ 200) :
    (requestBlobFetch env w kind url).1.1 = -1 ∧
    (requestBlobFetch env w kind url).1.2.1 = false ∧
    (requestBlobFetch env w kind url).1.2.2 ≠ none ∧
    (requestBlobFetch env w kind url).2.conn = w.conn ∧
    (requestBlobFetch env w kind url).2.files = w.files ∧
    (requestBlobFetch env w kind url).2.dirs = w.dirs ∧
    (5 ≤ (Base url).length → env.newRequest url = none →
      (requestBlobFetch env w kind url).1 = (-1, false, some (.errorGetting url resp.Status))) := by
  unfold requestBlobFetch
  by_cases hl : (Base url).length < 5
  · have h5 : ¬ 5 ≤ (Base url).length := by omega
    simp [hl, h5]
  · cases hreq : env.newRequest url with
    | some e => simp [hl, getRequest, hreq]
    | none => simp [hl, getRequest, hreq, hdo, hstatus]

/-! ## Lemmas on the prefix scan -/

theorem bytesLt_cons (a b : Byte) (s t : GoString) :
    bytesLt (a :: s) (b :: t) = true ↔ a < b ∨ (a = b ∧ bytesLt s t = true) := by
  simp [bytesLt]

theorem bytesLt_trans (a : GoString) :
    ∀ b c : GoString, bytesLt a b = true → bytesLt b c = true → bytesLt a c = true := by
  induction a with
  | nil =>
    intro b c hab hbc
    cases c with
    | nil => cases b <;> simp [bytesLt] at hbc
    | cons z c => rfl
  | cons x a ih =>
    intro b c hab hbc
    cases b with
    | nil => simp [bytesLt] at hab
    | cons y b =>
      cases c with
      | nil => simp [bytesLt] at hbc
      | cons z c =>
        rw [bytesLt_cons] at hab hbc ⊢
        rcases hab with hxy | ⟨hxy, hab⟩
        · rcases hbc with hyz | ⟨hyz, _⟩
          · exact Or.inl (lt_trans hxy hyz)
          · exact Or.inl (hyz ▸ hxy)
        · rcases hbc with hyz | ⟨hyz, hbc⟩
          · exact Or.inl (hxy ▸ hyz)
          · exact Or.inr ⟨hxy.trans hyz, ih b c hab hbc⟩

theorem bytesLt_total (a : GoString) :
    ∀ b : GoString, bytesLt a b = false → a ≠ b → bytesLt b a = true := by
  induction a with
  | nil =>
    intro b _ hne
    cases b with
    | nil => exact absurd rfl hne
    | cons y b => simp [bytesLt] at *
  | cons x a ih =>
    intro b hab hne
    cases b with
    | nil => rfl
    | cons y b =>
      rw [bytesLt_cons]
      have hn : ¬ (x < y ∨ (x = y ∧ bytesLt a b = true)) := by
        rw [← bytesLt_cons]; simp [hab]
      rcases lt_trichotomy x y with h | h | h
      · exact absurd (Or.inl h) hn
      · subst h
        refine Or.inr ⟨rfl, ih b ?_ ?_⟩
        · cases hb : bytesLt a b with
          | false => rfl
          | true => exact absurd (Or.inr ⟨rfl, hb⟩) hn
        · intro hab'
          exact hne (by rw [hab'])
      · exact Or.inl h

theorem HasPrefix_iff (pre : GoString) :
    ∀ k : GoString, HasPrefix k pre = true ↔ ∃ rest, k = pre ++ rest := by
  induction pre with
  | nil => intro k; simp [HasPrefix]
  | cons d pre ih =>
    intro k
    cases k with
    | nil => simp [HasPrefix]
    | cons c k =>
      simp only [HasPrefix, Bool.and_eq_true, decide_eq_true_eq, ih k, List.cons_append,
        List.cons.injEq]
      constructor
      · rintro ⟨h, rest, hr⟩
        exact ⟨rest, h, hr⟩
      · rintro ⟨rest, h, hr⟩
        exact ⟨h, rest, hr⟩

theorem TrimPrefix_append (pre rest : GoString) : TrimPrefix (pre ++ rest) pre = rest := by
  have h : HasPrefix (pre ++ rest) pre = true := (HasPrefix_iff pre _).2 ⟨rest, rfl⟩
  simp [TrimPrefix, h]

/-- A key that has the prefix is not below the prefix. -/
theorem HasPrefix_not_lt (pre : GoString) :
    ∀ k : GoString, HasPrefix k pre = true → bytesLt k pre = false := by
  induction pre with
  | nil => intro k _; cases k <;> rfl
  | cons d pre ih =>
    intro k h
    cases k with
    | nil => simp [HasPrefix] at h
    | cons c k =>
      simp only [HasPrefix, Bool.and_eq_true, decide_eq_true_eq] at h
      obtain ⟨hcd, hk⟩ := h
      subst hcd
      simp [bytesLt, ih k hk]

/-- A key that is neither below the prefix nor has it lies beyond all the
keys that have it: no key above it has the prefix. -/
theorem HasPrefix_past (pre : GoString) :
    ∀ k k' : GoString, bytesLt k pre = false → HasPrefix k pre = false →
      bytesLt k k' = true → HasPrefix k' pre = false := by
  induction pre with
  | nil => intro k k' _ h; simp [HasPrefix] at h
  | cons d pre ih =>
    intro k k' hlt hp hkk
    cases k with
    | nil => simp [bytesLt] at hlt
    | cons c k =>
      cases k' with
      | nil => rfl
      | cons e k' =>
        rw [bytesLt_cons] at hkk
        have hn : ¬ (c < d ∨ (c = d ∧ bytesLt k pre = true)) := by
          rw [← bytesLt_cons]; simp [hlt]
        cases hres : HasPrefix (e :: k') (d :: pre) with
        | false => rfl
        | true =>
          exfalso
          simp only [HasPrefix, Bool.and_eq_true, decide_eq_true_eq] at hres
          obtain ⟨hed, hk'⟩ := hres
          subst hed
          rcases hkk with hce | ⟨hce, hkk⟩
          · exact hn (Or.inl hce)
          · subst hce
            have h1 : bytesLt k pre = false := by
              cases hb : bytesLt k pre with
              | false => rfl
              | true => exact absurd (Or.inr ⟨rfl, hb⟩) hn
            have h2 : HasPrefix k pre = false := by
              simpa [HasPrefix] using hp
            have := ih k k' h1 h2 hkk
            simp [this] at hk'

theorem scanLoop_from_prefix (ctx : Nat → Bool) (hctx : ∀ i, ctx i = false) (pre : GoString)
    (l : List (GoString × GoString)) :
    ∀ i : Nat, SortedKeys l → (∀ kv ∈ l, bytesLt kv.1 pre = false) →
      scanLoop ctx pre i l
        = (l.filter (fun kv => HasPrefix kv.1 pre)).map (fun kv => TrimPrefix kv.1 pre) := by
  induction l with
  | nil => intro i _ _; rfl
  | cons e rest ih =>
    intro i hs hge
    obtain ⟨k, v⟩ := e
    have hs' := List.pairwise_cons.1 hs
    unfold scanLoop
    by_cases hp : HasPrefix k pre = true
    · simp only [hp, hctx i, if_true, Bool.false_eq_true, if_false, List.filter_cons_of_pos,
        List.map_cons]
      rw [ih (i + 1) hs'.2 (fun kv hkv => hge kv (List.mem_cons_of_mem _ hkv))]
    · have hp' : HasPrefix k pre = false := by simpa using hp
      have hnone : ∀ kv ∈ (k, v) :: rest, ¬ (HasPrefix kv.1 pre = true) := by
        intro kv hkv
        rcases List.mem_cons.1 hkv with rfl | hkv
        · exact hp
        · have := HasPrefix_past pre k kv.1 (hge (k, v) (List.mem_cons_self _ _)) hp'
            (hs'.1 kv hkv)
          simp [this]
      have hfil : ((k, v) :: rest).filter (fun kv => HasPrefix kv.1 pre) = [] :=
        List.filter_eq_nil_iff.2 hnone
      rw [hfil]
      simp [hp']

theorem scan_eq_filter (ctx : Nat → Bool) (hctx : ∀ i, ctx i = false) (pre : GoString)
    (l : List (GoString × GoString)) (hs : SortedKeys l) :
    scanLoop ctx pre 0 (seek pre l)
      = (l.filter (fun kv => HasPrefix kv.1 pre)).map (fun kv => TrimPrefix kv.1 pre) := by
  induction l with
  | nil => rfl
  | cons e rest ih =>
    obtain ⟨k, v⟩ := e
    have hs' := List.pairwise_cons.1 hs
    by_cases hlt : bytesLt k pre = true
    · have hp : ¬ (HasPrefix k pre = true) := by
        intro hp
        rw [HasPrefix_not_lt pre k hp] at hlt
        exact Bool.false_ne_true hlt
      have hseek : seek pre ((k, v) :: rest) = seek pre rest := by
        simp [seek, List.dropWhile, hlt]
      have hfil : ((k, v) :: rest).filter (fun kv => HasPrefix kv.1 pre)
          = rest.filter (fun kv => HasPrefix kv.1 pre) := by
        simp [List.filter, hp]
      rw [hseek, ih hs'.2, hfil]
    · have hlt' : bytesLt k pre = false := by simpa using hlt
      have hseek : seek pre ((k, v) :: rest) = (k, v) :: rest := by
        simp [seek, List.dropWhile, hlt']
      rw [hseek]
      apply scanLoop_from_prefix ctx hctx pre _ 0 hs
      intro kv hkv
      rcases List.mem_cons.1 hkv with rfl | hkv
      · exact hlt'
      · cases hb : bytesLt kv.1 pre with
        | false => rfl
        | true => exact absurd (bytesLt_trans k kv.1 pre (hs'.1 kv hkv) hb) hlt

theorem kvSet_keys (key val : GoString) (l : List (GoString × GoString)) (k' : GoString) :
    k' ∈ (kvSet key val l).map Prod.fst ↔ k' = key ∨ k' ∈ l.map Prod.fst := by
  induction l with
  | nil => simp [kvSet]
  | cons e rest ih =>
    obtain ⟨k, v⟩ := e
    unfold kvSet
    by_cases hlt : bytesLt k key = true
    · simp only [hlt, if_true, List.map_cons, List.mem_cons, ih]
      tauto
    · by_cases heq : k = key
      · subst heq
        simp [hlt]
      · simp [hlt, heq]

theorem kvSet_sorted (key val : GoString) (l : List (GoString × GoString))
    (hs : SortedKeys l) : SortedKeys (kvSet key val l) := by
  induction l with
  | nil => simp [kvSet, SortedKeys]
  | cons e rest ih =>
    obtain ⟨k, v⟩ := e
    have hs' := List.pairwise_cons.1 hs
    unfold kvSet
    by_cases hlt : bytesLt k key = true
    · simp only [hlt, if_true]
      refine List.pairwise_cons.2 ⟨?_, ih hs'.2⟩
      intro kv hkv
      have hmem : kv.1 ∈ (kvSet key val rest).map Prod.fst := List.mem_map_of_mem _ hkv
      rcases (kvSet_keys key val rest kv.1).1 hmem with h | h
      · rw [h]; exact hlt
      · obtain ⟨kv', hkv', he⟩ := List.mem_map.1 h
        rw [← he]
        exact hs'.1 kv' hkv'
    · by_cases heq : k = key
      · subst heq
        simp only [hlt, if_false, if_true]
        exact List.pairwise_cons.2 ⟨fun kv hkv => hs'.1 kv hkv, hs'.2⟩
      · simp only [hlt, heq, if_false]
        have hgt : bytesLt key k = true :=
          bytesLt_total k key (by simpa using hlt) heq
        refine List.pairwise_cons.2 ⟨?_, hs⟩
        intro kv hkv
        rcases List.mem_cons.1 hkv with rfl | hkv
        · exact hgt
        · exact bytesLt_trans key k kv.1 hgt (hs'.1 kv hkv)

/-- The key space of a state built by updates is in ascending key order and
holds exactly the keys of the pairs in its history. -/
theorem Built_invariant (env : Env) (hist : List (GoString × GoString)) (w : World)
    (hb : Built env hist w) :
    SortedKeys w.conn ∧
    ∀ key, key ∈ w.conn.map Prod.fst ↔ ∃ kp ∈ hist, key = PageKey kp.1 kp.2 := by
  induction hb with
  | empty w h => simp [h, SortedKeys]
  | update hist w w' kind path data _ hu ih =>
    obtain ⟨z, _, _, hw⟩ := UpdatePage_ok env w w' kind path data hu
    subst hw
    refine ⟨kvSet_sorted _ _ _ ih.1, ?_⟩
    intro key
    simp only [kvSet_keys, ih.2 key, List.mem_cons, exists_eq_or_imp]
  | frame hist w w' _ hc ih => rw [hc]; exact ih

theorem PageKey_of_prefix (kind : GoString) (k : GoString)
    (h : HasPrefix k (kind ++ [45]) = true) :
    k = PageKey kind (TrimPrefix k (kind ++ [45])) := by
  obtain ⟨rest, hr⟩ := (HasPrefix_iff _ k).1 h
  subst hr
  rw [TrimPrefix_append]
  rfl

theorem PageKey_hasPrefix (kind p : GoString) :
    HasPrefix (PageKey kind p) (kind ++ [45]) = true ∧
      TrimPrefix (PageKey kind p) (kind ++ [45]) = p :=
  ⟨(HasPrefix_iff _ _).2 ⟨p, rfl⟩, TrimPrefix_append _ _⟩

theorem PageKey_inj (k1 k2 p1 p2 : GoString) (h1 : (45 : Byte) ∉ k1) (h2 : (45 : Byte) ∉ k2)
    (h : PageKey k1 p1 = PageKey k2 p2) : k1 = k2 ∧ p1 = p2 := by
  simp only [PageKey, List.append_assoc, List.singleton_append] at h
  exact append_dash_inj k1 k2 p1 p2 h1 h2 h

/-! ## A write the store refuses -/

theorem longURL_length : longURL.length = 65000 := by
  simp only [longURL, List.length_replicate]

/-- In the small environment a URL of 65000 bytes or more with no record
under its key is fetched, the write of the record is refused for the size of
the key, and `RequestPage` passes the error on: nothing is stored. -/
theorem demoEnv_refuses_long (status : Int) (w : World) (kind url : GoString)
    (hmiss : kvGet (PageKey kind url) w.conn = none) (hlen : 65000 ≤ url.length) :
    RequestPage (demoEnv status) w kind url 60
      = (([], false, some (.external 5)),
          { w with sent := w.sent ++ [(url, w.userAgent)], ticks := w.ticks + 1 }) := by
  have hk : ¬ (PageKey kind url).length ≤ 65000 := by
    simp only [PageKey, List.length_append, List.length_singleton]
    omega
  have hneg : ¬ ((100 : Int) + (w.ticks : Int) < 0) := by omega
  simp only [RequestPage, GetPage, GetCompressedJSON, getCompressedJSON, hmiss,
    requestPageFetch, getRequest, UpdatePage, compressedJSON, demoEnv]
  simp [hk, hneg]

/-! ## What holds of the blob store on every input -/

/-- A file name shorter than 3 bytes is refused by `BlobPath` with the
too-small error; no path is returned and nothing is created. -/
theorem BlobPath_too_small (w : World) (filename : GoString) (h : filename.length < 3) :
    BlobPath w filename = (.error (.filenameTooSmall filename.length), w) := by
  simp [BlobPath, h]

/-- When the first three bytes of the file name are ASCII, the loop of
`BlobPath` appends exactly these three characters, one string each. -/
theorem rangeParts_ascii (a b c : Byte) (rest : GoString)
    (ha : a.val < 0x80) (hb : b.val < 0x80) (hc : c.val < 0x80) :
    rangeParts (a :: b :: c :: rest).length 0 (a :: b :: c :: rest) = [[a], [b], [c]] := by
  have enc : ∀ x : Byte, x.val < 0x80 → encodeRune x.val = [x] := by
    intro x hx
    have : (Fin.ofNat x.val : Fin 256) = x := by
      apply Fin.ext
      simp [Fin.ofNat, Nat.mod_eq_of_lt x.isLt]
    simp [encodeRune, hx, this]
  have dec : ∀ (x : Byte) (t : GoString), x.val < 0x80 → decodeRune (x :: t) = (x.val, 1) := by
    intro x t hx
    simp [decodeRune, hx]
  simp [rangeParts, dec a _ ha, dec b _ hb, dec c _ hc, enc a ha, enc b hb, enc c hc]

/-- A `WriteBlob` that returns no error returns the length of the stream. -/
theorem WriteBlob_count (w : World) (filename : GoString) (r : Reader)
    (h : (WriteBlob w filename r).1.2 = none) :
    (WriteBlob w filename r).1.1 = r.data.length := by
  unfold WriteBlob at h ⊢
  generalize BlobPath w filename = rb at h ⊢
  obtain ⟨res, w1⟩ := rb
  cases res with
  | error e => simp at h
  | ok fullPath =>
    simp only at h ⊢
    generalize OpenFile w1 fullPath = ro at h ⊢
    obtain ⟨oe, w2⟩ := ro
    cases oe with
    | some e => simp at h
    | none => rfl

/-! ## The claims -/

/-- C9: `PageKey(kind, path)` is the byte string `kind + "-" + path`, and on
kinds that do not contain `'-'` it is injective: equal keys come from equal
kinds and equal paths. -/
theorem PageKey_format_injective :
    (∀ kind path : GoString, PageKey kind path = kind ++ goStr "-" ++ path) ∧
    (∀ k1 k2 p1 p2 : GoString, (45 : Byte) ∉ k1 → (45 : Byte) ∉ k2 →
      PageKey k1 p1 = PageKey k2 p2 → k1 = k2 ∧ p1 = p2) := by
  refine ⟨fun kind path => rfl, ?_⟩
  intro k1 k2 p1 p2 h1 h2 h
  simp only [PageKey, List.append_assoc, List.singleton_append] at h
  exact append_dash_inj k1 k2 p1 p2 h1 h2 h

theorem PageKey_format_injective_witness :
    PageKey (goStr "KIND") (goStr "PATH") = goStr "KIND-PATH" ∧
    (goStr "page" = goStr "page" ∧ goStr "https://test.com/a" = goStr "https://test.com/a") :=
  ⟨PageKey_format_injective.1 (goStr "KIND") (goStr "PATH"),
   PageKey_format_injective.2 (goStr "page") (goStr "page") (goStr "https://test.com/a")
     (goStr "https://test.com/a") (by decide) (by decide) rfl⟩

/-- C1: whatever the store held before (a record under the same key
included), after a successful `UpdatePage(kind, path, data)` the call
`GetPage(kind, path)` succeeds and returns the record stamped with the clock
reading of the update and carrying exactly `data`; decoding (gzip reader, JSON
decoder) undoes `compressedJSON` on every record; and a later successful update
of the same key replaces the record. -/
theorem UpdatePage_GetPage_roundtrip (env : Env) (hl : env.Lawful) (w w' : World)
    (kind path data : GoString) (h : UpdatePage env w kind path data = (none, w')) :
    GetPage env w' kind path = .ok ⟨env.now w.ticks, data⟩ ∧
    (∀ (p : Page) (z : GoString), compressedJSON env p = .ok z →
      getCompressedJSON env [(PageKey kind path, z)] (PageKey kind path) = .ok p) ∧
    (∀ (data2 : GoString) (w2 : World), UpdatePage env w' kind path data2 = (none, w2) →
      GetPage env w2 kind path = .ok ⟨env.now w'.ticks, data2⟩) := by
  have key : ∀ (v v' : World) (d : GoString), UpdatePage env v kind path d = (none, v') →
      GetPage env v' kind path = .ok ⟨env.now v.ticks, d⟩ := by
    intro v v' d hv
    obtain ⟨z, hz, _, hw⟩ := UpdatePage_ok env v v' kind path d hv
    rw [hw]
    exact GetPage_after_set env hl v kind path z _ hz _
  refine ⟨key w w' data h, ?_, fun data2 w2 h2 => key w' w2 data2 h2⟩
  intro p z hz
  obtain ⟨r, hr, hd⟩ := compressedJSON_decodes env hl p z hz
  simp [getCompressedJSON, kvGet, hr, hd]

theorem UpdatePage_GetPage_roundtrip_witness :
    GetPage (demoEnv 200)
        (UpdatePage (demoEnv 200)
          (UpdatePage (demoEnv 200) demoWorld (goStr "other") (goStr "https://test.com/c")
            (goStr "c")).2
          (goStr "other") (goStr "https://test.com/c") (goStr "cccc")).2
        (goStr "other") (goStr "https://test.com/c")
      = .ok ⟨101, goStr "cccc"⟩ :=
  (UpdatePage_GetPage_roundtrip (demoEnv 200) (demoEnv_lawful 200)
    (UpdatePage (demoEnv 200) demoWorld (goStr "other") (goStr "https://test.com/c")
      (goStr "c")).2 _
    (goStr "other") (goStr "https://test.com/c") (goStr "cccc") rfl).1

/-- C4, as the claim states it, fails: on the empty store, with a server
that answers the GET of the 65000-byte URL with status 200 and the URL as
body, and the clock inside the staleness window, the store refuses the
write (the key is too long) and `RequestPage` returns `(nil, false, err)`,
not `(b, false, nil)`; nothing is stored, so the second call is no cache hit
either: it fails the same way and sends a second request. -/
theorem RequestPage_store_refuses :
    kvGet (PageKey (goStr "page") longURL) demoWorld.conn = none ∧
    (demoEnv 200).newRequest longURL = none ∧
    (demoEnv 200).clientDo demoWorld.sent.length longURL demoWorld.userAgent
      = .ok ⟨200, decimalInt 200, ⟨longURL, none⟩⟩ ∧
    (demoEnv 200).now (demoWorld.ticks + 1) < (demoEnv 200).now demoWorld.ticks + 60 ∧
    RequestPage (demoEnv 200) demoWorld (goStr "page") longURL 60
      = (([], false, some (.external 5)),
          { demoWorld with sent := [(longURL, goStr "ScrapeDB")], ticks := 1 }) ∧
    RequestPage (demoEnv 200)
        { demoWorld with sent := [(longURL, goStr "ScrapeDB")], ticks := 1 }
        (goStr "page") longURL 60
      = (([], false, some (.external 5)),
          { demoWorld with
              sent := [(longURL, goStr "ScrapeDB"), (longURL, goStr "ScrapeDB")],
              ticks := 2 }) :=
  ⟨rfl, rfl, rfl, by decide,
    demoEnv_refuses_long 200 demoWorld (goStr "page") longURL rfl
      (le_of_eq longURL_length.symm),
    demoEnv_refuses_long 200
      { demoWorld with sent := [(longURL, goStr "ScrapeDB")], ticks := 1 }
      (goStr "page") longURL rfl (le_of_eq longURL_length.symm)⟩

/-- C4, amended: from a store with no record for `(kind, url)`, when the GET
of `url` succeeds with body `b` and the store takes the record (the
`UpdatePage` inside the first call returns `nil`), two calls of
`RequestPage`, the second with the clock strictly before the fetch time plus
`staleAfter`, return `(b, false, nil)` and then `(b, true, nil)`; the first
call sends one request and the second sends none. -/
theorem RequestPage_twice_cached (env : Env) (hl : env.Lawful) (w : World)
    (kind url b : GoString) (staleAfter : Int) (resp : Response)
    (hmiss : kvGet (PageKey kind url) w.conn = none)
    (hreq : env.newRequest url = none)
    (hdo : env.clientDo w.sent.length url w.userAgent = .ok resp)
    (hbody : resp.Body = ⟨b, none⟩)
    (hstore : (UpdatePage env { w with sent := w.sent ++ [(url, w.userAgent)] } kind url b).1
      = none)
    (hfresh : env.now (w.ticks + 1) < env.now w.ticks + staleAfter) :
    (RequestPage env w kind url staleAfter).1 = (b, false, none) ∧
    (RequestPage env (RequestPage env w kind url staleAfter).2 kind url staleAfter).1
      = (b, true, none) ∧
    (RequestPage env w kind url staleAfter).2.sent = w.sent ++ [(url, w.userAgent)] ∧
    (RequestPage env (RequestPage env w kind url staleAfter).2 kind url staleAfter).2.sent
      = (RequestPage env w kind url staleAfter).2.sent := by
  obtain ⟨z, hz, hf⟩ := requestPageFetch_ok env w kind url b resp hreq hdo hbody hstore
  have h1 : RequestPage env w kind url staleAfter = _ :=
    (RequestPage_noFresh env w w kind url staleAfter (Or.inl ⟨hmiss, rfl⟩)).trans hf
  have hg := GetPage_after_set env hl { w with sent := w.sent ++ [(url, w.userAgent)] }
    kind url z _ hz (w.ticks + 1)
  have h2 := RequestPage_hit env _ kind url staleAfter _ hg hfresh
  rw [h1]
  refine ⟨rfl, ?_, rfl, ?_⟩
  · exact (congrArg Prod.fst h2)
  · exact (congrArg (fun r => r.2.sent) h2)

theorem RequestPage_twice_cached_witness :
    (RequestPage (demoEnv 200) demoWorld (goStr "page") (goStr "http://h/my-page") 60).1
      = (goStr "http://h/my-page", false, none) ∧
    (RequestPage (demoEnv 200)
      (RequestPage (demoEnv 200) demoWorld (goStr "page") (goStr "http://h/my-page") 60).2
      (goStr "page") (goStr "http://h/my-page") 60).1
      = (goStr "http://h/my-page", true, none) :=
  have h := RequestPage_twice_cached (demoEnv 200) (demoEnv_lawful 200) demoWorld
    (goStr "page") (goStr "http://h/my-page") (goStr "http://h/my-page") 60
    ⟨200, decimalInt 200, ⟨goStr "http://h/my-page", none⟩⟩ rfl rfl rfl rfl rfl (by decide)
  ⟨h.1, h.2.1⟩

/-- C8: when the store holds a record for `(kind, url)` whose
`FetchedAt + staleAfter` is strictly after the clock reading, `RequestBlob`
returns `(0, true, nil)` whatever the record's data and the URL's file name;
it only reads the clock: no request is sent and the page store, the blob
files and the directories are unchanged. -/
theorem RequestBlob_fresh_hit (env : Env) (w : World) (kind url : GoString) (staleAfter : Int)
    (page : Page) (hget : GetPage env w kind url = .ok page)
    (hfresh : env.now w.ticks < page.FetchedAt + staleAfter) :
    RequestBlob env w kind url staleAfter = ((0, true, none), { w with ticks := w.ticks + 1 }) ∧
    (RequestBlob env w kind url staleAfter).2.sent = w.sent ∧
    (RequestBlob env w kind url staleAfter).2.conn = w.conn ∧
    (RequestBlob env w kind url staleAfter).2.files = w.files ∧
    (RequestBlob env w kind url staleAfter).2.dirs = w.dirs := by
  have hlt : page.FetchedAt + staleAfter > env.now w.ticks := by omega
  have h : RequestBlob env w kind url staleAfter
      = ((0, true, none), { w with ticks := w.ticks + 1 }) := by
    simp [RequestBlob, hget, hlt]
  rw [h]
  exact ⟨rfl, rfl, rfl, rfl, rfl⟩

theorem RequestBlob_fresh_hit_witness :
    RequestBlob (demoEnv 200)
        (UpdatePage (demoEnv 200) demoWorld (goStr "page") (goStr "http://h/x") (goStr "8")).2
        (goStr "page") (goStr "http://h/x") 60
      = ((0, true, none),
          { (UpdatePage (demoEnv 200) demoWorld (goStr "page") (goStr "http://h/x")
              (goStr "8")).2 with ticks := 2 }) :=
  (RequestBlob_fresh_hit (demoEnv 200)
    (UpdatePage (demoEnv 200) demoWorld (goStr "page") (goStr "http://h/x") (goStr "8")).2
    (goStr "page") (goStr "http://h/x") 60 ⟨100, goStr "8"⟩ rfl (by decide)).1

/-- C10, as the claim states it, fails: on the empty store, with a server
that answers the GET of the 65000-byte URL with status 404 and the URL as
body, the store refuses the write (the key is too long) and `RequestPage`
returns `(nil, false, err)` with no record stored, not `(b, false, nil)`
with `b` stored. -/
theorem RequestPage_status_store_refuses :
    NoFreshRecord (demoEnv 404) demoWorld (goStr "page") longURL 60 demoWorld ∧
    (demoEnv 404).newRequest longURL = none ∧
    (demoEnv 404).clientDo demoWorld.sent.length longURL demoWorld.userAgent
      = .ok ⟨404, decimalInt 404, ⟨longURL, none⟩⟩ ∧
    (RequestPage (demoEnv 404) demoWorld (goStr "page") longURL 60).1
      = ([], false, some (.external 5)) ∧
    (RequestPage (demoEnv 404) demoWorld (goStr "page") longURL 60).2.conn = [] ∧
    GetPage (demoEnv 404) (RequestPage (demoEnv 404) demoWorld (goStr "page") longURL 60).2
      (goStr "page") longURL = .error .ErrKeyNotFound := by
  have h := demoEnv_refuses_long 404 demoWorld (goStr "page") longURL rfl
    (le_of_eq longURL_length.symm)
  rw [h]
  exact ⟨Or.inl ⟨rfl, rfl⟩, rfl, rfl, rfl, rfl, rfl⟩

/-- C10, amended: `RequestPage` does not look at the HTTP status.  With no
fresh record for `(kind, url)` (none under the key, or a stale one),
whatever response the client returns (status 404 or 500 included), once its
body `b` is read and the store takes the record (the `UpdatePage` inside the
call returns `nil`), `RequestPage` returns `(b, false, nil)`, the record for
`(kind, url)` holds `b`, and a following call inside the staleness window
returns `(b, true, nil)`.  `RequestBlob` in the same situation, when the
status is not 200, returns `-1`, `false` and an error (the status error when
the file name passes the length check) and leaves the page store, the blob
files and the directories as they were. -/
theorem RequestPage_ignores_status (env : Env) (hl : env.Lawful) (w w0 : World)
    (kind url b : GoString) (staleAfter : Int) (resp : Response)
    (hnf : NoFreshRecord env w kind url staleAfter w0)
    (hreq : env.newRequest url = none)
    (hdo : env.clientDo w.sent.length url w.userAgent = .ok resp)
    (hbody : resp.Body = ⟨b, none⟩)
    (hstore : (UpdatePage env { w0 with sent := w0.sent ++ [(url, w0.userAgent)] } kind url b).1
      = none)
    (hfresh : env.now (w0.ticks + 1) < env.now w0.ticks + staleAfter) :
    (RequestPage env w kind url staleAfter).1 = (b, false, none) ∧
    GetPage env (RequestPage env w kind url staleAfter).2 kind url
      = .ok ⟨env.now w0.ticks, b⟩ ∧
    (RequestPage env (RequestPage env w kind url staleAfter).2 kind url staleAfter).1
      = (b, true, none) ∧
    (resp.StatusCode ≠ 200 →
      (RequestBlob env w kind url staleAfter).1.1 = -1 ∧
      (RequestBlob env w kind url staleAfter).1.2.1 = false ∧
      (RequestBlob env w kind url staleAfter).1.2.2 ≠ none ∧
      (RequestBlob env w kind url staleAfter).2.conn = w.conn ∧
      (RequestBlob env w kind url staleAfter).2.files = w.files ∧
      (RequestBlob env w kind url staleAfter).2.dirs = w.dirs ∧
      (5 ≤ (Base url).length →
        (RequestBlob env w kind url staleAfter).1
          = (-1, false, some (.errorGetting url resp.Status)))) := by
  obtain ⟨hc, hf, hd, hs, hu, _⟩ := NoFreshRecord_frame env w w0 kind url staleAfter hnf
  have hdo0 : env.clientDo w0.sent.length url w0.userAgent = .ok resp := by rw [hs, hu]; exact hdo
  obtain ⟨z, hz, hfetch⟩ := requestPageFetch_ok env w0 kind url b resp hreq hdo0 hbody hstore
  have h1 : RequestPage env w kind url staleAfter = _ :=
    (RequestPage_noFresh env w w0 kind url staleAfter hnf).trans hfetch
  have hg := GetPage_after_set env hl { w0 with sent := w0.sent ++ [(url, w0.userAgent)] }
    kind url z _ hz (w0.ticks + 1)
  have h2 := RequestPage_hit env _ kind url staleAfter _ hg hfresh
  refine ⟨by rw [h1], by rw [h1]; exact hg, by rw [h1]; exact congrArg Prod.fst h2, ?_⟩
  intro hstatus
  rw [RequestBlob_noFresh env w w0 kind url staleAfter hnf]
  obtain ⟨r1, r2, r3, r4, r5, r6, r7⟩ := requestBlobFetch_not_ok env w0 kind url resp hdo0 hstatus
  exact ⟨r1, r2, r3, r4.trans hc, r5.trans hf, r6.trans hd, fun h5 => r7 h5 hreq⟩

theorem RequestPage_ignores_status_witness :
    (RequestPage (demoEnv 404) demoWorld (goStr "page") (goStr "http://h/my-page") 60).1
      = (goStr "http://h/my-page", false, none) ∧
    (RequestBlob (demoEnv 404) demoWorld (goStr "page") (goStr "http://h/my-page") 60).1
      = (-1, false, some (.errorGetting (goStr "http://h/my-page") (goStr "404"))) :=
  have h := RequestPage_ignores_status (demoEnv 404) (demoEnv_lawful 404) demoWorld demoWorld
    (goStr "page") (goStr "http://h/my-page") (goStr "http://h/my-page") 60
    ⟨404, decimalInt 404, ⟨goStr "http://h/my-page", none⟩⟩ (Or.inl ⟨rfl, rfl⟩) rfl rfl rfl rfl
    (by decide)
  ⟨h.1, (h.2.2.2 (by decide)).2.2.2.2.2.2 (by decide)⟩

/-- C5, as the claim states it, fails: the last segment of `http://h/abcd` has
length 4, which `BlobPath` accepts, yet `RequestBlob` on an empty store rejects
the URL as too short and sends no request. -/
theorem RequestBlob_rejects_length_four :
    (Base (goStr "http://h/abcd")).length = 4 ∧
    (BlobPath demoWorld (Base (goStr "http://h/abcd"))).1 = .ok (goStr "blobs/a/b/c/abcd") ∧
    RequestBlob (demoEnv 200) demoWorld (goStr "page") (goStr "http://h/abcd") 60
      = ((-1, false, some (.tooShort (goStr "abcd"))), demoWorld) ∧
    (RequestBlob (demoEnv 200) demoWorld (goStr "page") (goStr "http://h/abcd") 60).2.sent
      = [] :=
  ⟨by decide, rfl, rfl, rfl⟩

/-- C5, amended: on a cache miss or a stale record `RequestBlob` compares the
length of `filepath.Base(url)` with 5, not with the 3 of `BlobPath`.  Below 5
it returns the too-short error at once, with no request sent and the state as
the cache check left it; from 5 on the check passes and, when the request
can be built, the GET is sent. -/
theorem RequestBlob_filename_check (env : Env) (w w0 : World) (kind url : GoString)
    (staleAfter : Int) (hnf : NoFreshRecord env w kind url staleAfter w0) :
    ((Base url).length < 5 →
      RequestBlob env w kind url staleAfter = ((-1, false, some (.tooShort (Base url))), w0) ∧
      (RequestBlob env w kind url staleAfter).2.sent = w.sent) ∧
    (5 ≤ (Base url).length → env.newRequest url = none →
      (RequestBlob env w kind url staleAfter).2.sent = w.sent ++ [(url, w.userAgent)]) := by
  obtain ⟨_, _, _, hs, hu, _⟩ := NoFreshRecord_frame env w w0 kind url staleAfter hnf
  rw [RequestBlob_noFresh env w w0 kind url staleAfter hnf]
  constructor
  · intro hlt
    have h : requestBlobFetch env w0 kind url
        = ((-1, false, some (.tooShort (Base url))), w0) := by
      simp [requestBlobFetch, hlt]
    rw [h]
    exact ⟨rfl, hs⟩
  · intro hge hreq
    rw [requestBlobFetch_sent env w0 kind url hge hreq, hs, hu]

theorem RequestBlob_filename_check_witness :
    (RequestBlob (demoEnv 200) demoWorld (goStr "page") (goStr "http://h/abcd") 60
        = ((-1, false, some (.tooShort (Base (goStr "http://h/abcd")))), demoWorld) ∧
      (RequestBlob (demoEnv 200) demoWorld (goStr "page") (goStr "http://h/abcd") 60).2.sent
        = demoWorld.sent) ∧
    (RequestBlob (demoEnv 200) demoWorld (goStr "page") (goStr "http://h/my-blob") 60).2.sent
      = demoWorld.sent ++ [(goStr "http://h/my-blob", demoWorld.userAgent)] :=
  ⟨(RequestBlob_filename_check (demoEnv 200) demoWorld demoWorld (goStr "page")
      (goStr "http://h/abcd") 60 (Or.inl ⟨rfl, rfl⟩)).1 (by decide),
   (RequestBlob_filename_check (demoEnv 200) demoWorld demoWorld (goStr "page")
      (goStr "http://h/my-blob") 60 (Or.inl ⟨rfl, rfl⟩)).2 (by decide) rfl⟩

/-- C7: when the context is already cancelled at the first check, the
sequence `ScanPages` produces has no elements, whatever the store holds; the
scan ends (the channel is closed) and no error is returned. -/
theorem ScanPages_cancelled (w : World) (ctx : Nat → Bool) (kind : GoString)
    (h : ctx 0 = true) : ScanPages w ctx kind = ([], none) := by
  unfold ScanPages
  cases seek (kind ++ [45]) w.conn with
  | nil => rfl
  | cons e rest =>
    obtain ⟨k, v⟩ := e
    simp [scanLoop, h]

theorem ScanPages_cancelled_witness :
    (ScanPages
        (UpdatePage (demoEnv 200) demoWorld (goStr "page") (goStr "https://test.com/a")
          (goStr "a")).2
        (fun _ => false) (goStr "page")).1 = [goStr "https://test.com/a"] ∧
    ScanPages
        (UpdatePage (demoEnv 200) demoWorld (goStr "page") (goStr "https://test.com/a")
          (goStr "a")).2
        (fun _ => true) (goStr "page") = ([], none) :=
  ⟨by decide, ScanPages_cancelled _ (fun _ => true) (goStr "page") rfl⟩

/-- C6, as the claim states it, fails: after the single call
`UpdatePage("a-b", "c", "x")` on an empty store, a scan of kind `"a"` that is
never cancelled delivers `"b-c"`, taken from the record stored under the kind
`"a-b"`, although nothing was stored under kind `"a"`. -/
theorem ScanPages_leaks_across_kinds :
    Built (demoEnv 200) [(goStr "a-b", goStr "c")]
      (UpdatePage (demoEnv 200) demoWorld (goStr "a-b") (goStr "c") (goStr "x")).2 ∧
    (ScanPages (UpdatePage (demoEnv 200) demoWorld (goStr "a-b") (goStr "c") (goStr "x")).2
      (fun _ => false) (goStr "a")).1 = [goStr "b-c"] ∧
    ∀ p : GoString, (goStr "a", p) ∉ [(goStr "a-b", goStr "c")] := by
  refine ⟨Built.update [] demoWorld _ (goStr "a-b") (goStr "c") (goStr "x")
    (Built.empty demoWorld rfl) rfl, by decide, ?_⟩
  intro p hp
  simp only [List.mem_singleton, Prod.mk.injEq] at hp
  exact absurd hp.1 (by decide)

/-- C6, amended: for a store built by `UpdatePage` calls whose kinds contain
no `'-'`, and a kind `k` without `'-'`, the sequence `ScanPages(ctx, k)` produces
under a context that is never cancelled contains exactly the paths `p` with
a record stored under `(k, p)`, in ascending key order and each once; it is
empty when nothing was stored under `k`, and no error is returned. -/
theorem ScanPages_exact (env : Env) (hist : List (GoString × GoString)) (w : World)
    (ctx : Nat → Bool) (kind : GoString) (hb : Built env hist w)
    (hctx : ∀ i, ctx i = false) (hk : (45 : Byte) ∉ kind)
    (hh : ∀ kp ∈ hist, (45 : Byte) ∉ kp.1) :
    (∀ p, p ∈ (ScanPages w ctx kind).1 ↔ (kind, p) ∈ hist) ∧
    (ScanPages w ctx kind).1.Pairwise
      (fun a b => bytesLt (PageKey kind a) (PageKey kind b) = true) ∧
    (ScanPages w ctx kind).1.Nodup ∧
    ((∀ p, (kind, p) ∉ hist) → (ScanPages w ctx kind).1 = []) ∧
    (ScanPages w ctx kind).2 = none := by
  obtain ⟨hsorted, hkeys⟩ := Built_invariant env hist w hb
  have hscan : (ScanPages w ctx kind).1
      = (w.conn.filter (fun kv => HasPrefix kv.1 (kind ++ [45]))).map
          (fun kv => TrimPrefix kv.1 (kind ++ [45])) :=
    scan_eq_filter ctx hctx (kind ++ [45]) w.conn hsorted
  have hmem : ∀ p, p ∈ (ScanPages w ctx kind).1 ↔ (kind, p) ∈ hist := by
    intro p
    rw [hscan]
    constructor
    · intro hp
      obtain ⟨kv, hkv, hkp⟩ := List.mem_map.1 hp
      obtain ⟨hin, hpre⟩ := List.mem_filter.1 hkv
      have hkey : kv.1 = PageKey kind p := by
        rw [← hkp]; exact PageKey_of_prefix kind kv.1 hpre
      obtain ⟨kp, hkpm, he⟩ := (hkeys kv.1).1 (List.mem_map_of_mem _ hin)
      rw [hkey] at he
      obtain ⟨h1, h2⟩ := PageKey_inj kind kp.1 p kp.2 hk (hh kp hkpm) he
      have : kp = (kind, p) := by rw [h1, h2]
      rw [← this]
      exact hkpm
    · intro hp
      have hin : PageKey kind p ∈ w.conn.map Prod.fst := (hkeys _).2 ⟨(kind, p), hp, rfl⟩
      obtain ⟨kv, hkv, he⟩ := List.mem_map.1 hin
      refine List.mem_map.2 ⟨kv, List.mem_filter.2 ⟨hkv, ?_⟩, ?_⟩
      · simp only [he]; exact (PageKey_hasPrefix kind p).1
      · simp only [he]; exact (PageKey_hasPrefix kind p).2
  have hpw : (ScanPages w ctx kind).1.Pairwise
      (fun a b => bytesLt (PageKey kind a) (PageKey kind b) = true) := by
    rw [hscan, List.pairwise_map]
    refine List.Pairwise.imp_of_mem ?_ (List.Pairwise.filter _ hsorted)
    intro a b ha hb hab
    rw [← PageKey_of_prefix kind a.1 (List.mem_filter.1 ha).2,
      ← PageKey_of_prefix kind b.1 (List.mem_filter.1 hb).2]
    exact hab
  refine ⟨hmem, hpw, ?_, ?_, rfl⟩
  · refine List.Pairwise.imp ?_ hpw
    intro a b hab he
    exact bytesLt_ne hab (by rw [he])
  · intro hnone
    apply List.eq_nil_iff_forall_not_mem.2
    intro p hp
    exact hnone p ((hmem p).1 hp)

theorem ScanPages_exact_witness :
    (goStr "https://test.com/a" ∈ (ScanPages
        (UpdatePage (demoEnv 200)
          (UpdatePage (demoEnv 200) demoWorld (goStr "page") (goStr "https://test.com/a")
            (goStr "a")).2
          (goStr "other") (goStr "https://test.com/c") (goStr "c")).2
        (fun _ => false) (goStr "page")).1
      ↔ (goStr "page", goStr "https://test.com/a") ∈
          [(goStr "other", goStr "https://test.com/c"),
           (goStr "page", goStr "https://test.com/a")]) :=
  (ScanPages_exact (demoEnv 200)
    [(goStr "other", goStr "https://test.com/c"), (goStr "page", goStr "https://test.com/a")]
    _ (fun _ => false) (goStr "page")
    (Built.update _ _ _ (goStr "other") (goStr "https://test.com/c") (goStr "c")
      (Built.update [] demoWorld _ (goStr "page") (goStr "https://test.com/a") (goStr "a")
        (Built.empty demoWorld rfl) rfl) rfl)
    (fun _ => rfl) (by decide) (by decide)).1 (goStr "https://test.com/a")

/-- C2 at failing inputs.  The file name `éab` is 4 bytes long (`é` takes
two), so it passes the length check; the loop index is the byte offset of
each character, so `i == 2` holds at the second character and `BlobPath`
returns a path with two directory levels, `é` and `a`.  In `aébcd` no
character starts at offset 2, the loop runs to the end of the name and all
five characters become directory levels.  An ASCII name such as `path` gets
its three levels. -/
theorem BlobPath_multibyte_levels :
    (goStr "éab").length = 4 ∧
    (BlobPath demoWorld (goStr "éab")).1 = .ok (goStr "blobs/é/a/éab") ∧
    (BlobPath demoWorld (goStr "aébcd")).1
      = .ok (goStr "blobs/a/é/b/c/d/aébcd") ∧
    (BlobPath demoWorld (goStr "path")).1 = .ok (goStr "blobs/p/a/t/path") :=
  ⟨by decide, rfl, rfl, rfl⟩

/-- C3 at a failing input.  With the blob `path` already holding the 8
bytes `abcdefgh`, `WriteBlob("path", "xy")` succeeds and returns the byte
count 2, and the following `ReadBlob("path")` returns `xycdefgh`: the file is
opened without truncation and keeps the old bytes beyond the two written. -/
theorem WriteBlob_keeps_old_tail :
    (ReadBlob (WriteBlob demoWorld (goStr "path") ⟨goStr "abcdefgh", none⟩).2
      (goStr "path")).1 = .ok (goStr "abcdefgh") ∧
    (WriteBlob (WriteBlob demoWorld (goStr "path") ⟨goStr "abcdefgh", none⟩).2
      (goStr "path") ⟨goStr "xy", none⟩).1 = (2, none) ∧
    (ReadBlob
      (WriteBlob (WriteBlob demoWorld (goStr "path") ⟨goStr "abcdefgh", none⟩).2
        (goStr "path") ⟨goStr "xy", none⟩).2
      (goStr "path")).1 = .ok (goStr "xycdefgh") :=
  ⟨rfl, rfl, rfl⟩

end ScrapeDB
